import Mathlib

/-!
Verification of the Weave board application's core algorithms:
dual-tier persistence (binary-field strip/save/hydrate), the board
registry lifecycle, the incremental analysis controller (`WeaveButton`),
the staggered parallel-edge geometry, and the node-id allocator.

Every definition is a shallow embedding of the corresponding TypeScript
source; doc comments name the embedded function.
-/

set_option maxRecDepth 10000

/-! ## JavaScript-style dynamic values

Node `data` records hold strings and booleans (`text`, `imageDataUrl`,
`loading`, `url`, `pdfDataUrl`, ...).  We model the dynamic values the
application stores together with JavaScript truthiness. -/

/-- A JavaScript value as stored in a node's `data` record. -/
inductive JsValue where
  | vStr (s : String)
  | vBool (b : Bool)
  deriving DecidableEq

/-- JavaScript truthiness of `data[field]` (`undefined` is falsy, a string
is truthy iff non-empty, a boolean is itself). -/
def truthy : Option JsValue → Bool
  | none => false
  | some (.vStr s) => !s.isEmpty
  | some (.vBool b) => b

/-- JavaScript `String(v)` on the values we model. -/
def jsString : JsValue → String
  | .vStr s => s
  | .vBool b => if b then "true" else "false"

/-- Characters removed by JavaScript's `String.prototype.trim`
(common whitespace). -/
def isJsSpace (c : Char) : Bool :=
  c = ' ' || c = '\t' || c = '\n' || c = '\r'

/-- JavaScript `s.trim()`. -/
def jsTrim (s : String) : String :=
  ⟨((s.data.dropWhile isJsSpace).reverse.dropWhile isJsSpace).reverse⟩

/-! ## Node data records (JS objects) as association lists -/

/-- A node's `data` object: field name to value, insertion ordered,
keys unique (a JS object cannot hold a key twice). -/
abbrev NodeData := List (String × JsValue)

/-- Property read `d[k]`. -/
def dataLookup : NodeData → String → Option JsValue
  | [], _ => none
  | (k', v) :: rest, k => if k' = k then some v else dataLookup rest k

/-- JS `delete d[k]`. -/
def dataDelete (d : NodeData) (k : String) : NodeData :=
  d.filter (fun p => p.1 ≠ k)

/-- Property write `d[k] = v` (updates in place, or appends a fresh key). -/
def dataSet : NodeData → String → JsValue → NodeData
  | [], k, v => [(k, v)]
  | (k', v') :: rest, k, v =>
    if k' = k then (k, v) :: rest else (k', v') :: dataSet rest k v

/-- The keys of a data record. -/
def dataKeys (d : NodeData) : List String := d.map (·.1)

/-- `SerializedNode` from `src/types/board.ts`: id, node kind, position and
the dynamic `data` record. -/
structure SNode where
  id : String
  type : String
  position : Int × Int
  data : NodeData
  deriving DecidableEq

/-! ## Connections and analysis layers -/

/-- `WeaveMode` from `src/types/board.ts`. -/
inductive WeaveMode where
  | weave | deeper | tensions
  deriving DecidableEq

/-- `Connection` from `src/api/claude.ts`.  The source fields `from`/`to`
are Lean keywords and are embedded as `fromId`/`toId`. -/
structure Connection where
  fromId : String
  toId : String
  label : String
  explanation : String
  type : String
  strength : ℚ
  surprise : ℚ
  mode : Option WeaveMode
  deriving DecidableEq

/-- Canonicalization of an endpoint id: the regex replace that strips one
leading "node-" decoration (`stripNodePrefix` in `useStaggeredEdges.ts`,
`strip` in `WeaveButton.tsx`). -/
def canonicalizeNodeId (id : String) : String :=
  match id.data with
  | 'n' :: 'o' :: 'd' :: 'e' :: '-' :: rest => ⟨rest⟩
  | _ => id

/-! ## Dual-tier persistence: binary fields (useBoardStorage.ts,
binaryStorage.ts) -/

/-- `BINARY_FIELDS` / `getBinaryFields` from `src/utils/binaryStorage.ts`:
the statically known binary field names of each node kind. -/
def getBinaryFields (nodeType : String) : List String :=
  if nodeType = "imageCard" then ["imageDataUrl"]
  else if nodeType = "pdfCard" then ["pdfDataUrl", "thumbnailDataUrl"]
  else []

/-- The IndexedDB binary store: key/value pairs, later writes shadow
earlier ones (lookup finds the most recent write). -/
abbrev BinStore := List (String × String)

/-- `makeKey` from `src/utils/binaryStorage.ts`: `boardId:nodeId:field`. -/
def makeKey (boardId nodeId field : String) : String :=
  boardId ++ ":" ++ nodeId ++ ":" ++ field

/-- `set(key, value, binaryStore)` (idb-keyval): the new entry shadows any
previous value for the key. -/
def storeSet (st : BinStore) (k v : String) : BinStore := (k, v) :: st

/-- `get(key, binaryStore)` (idb-keyval). -/
def storeGet : BinStore → String → Option String
  | [], _ => none
  | (k', v) :: rest, k => if k' = k then some v else storeGet rest k

/-- `stripBinaryFields` from `src/hooks/useBoardStorage.ts`: delete each
statically known binary field of the node's kind from its data. -/
def stripBinaryFields (node : SNode) : SNode :=
  let fields := getBinaryFields node.type
  if fields.isEmpty then node
  else { node with data := fields.foldl dataDelete node.data }

/-- The inner loop of `saveBinaryFieldsForNodes`: for each binary field of
one node, write its value to the binary store when it is a non-empty
string (`typeof value === 'string' && value.length > 0`). -/
def saveNodeFields (boardId : String) (node : SNode) (st : BinStore) : BinStore :=
  (getBinaryFields node.type).foldl
    (fun st field =>
      match dataLookup node.data field with
      | some (.vStr v) => if v.length > 0 then storeSet st (makeKey boardId node.id field) v else st
      | _ => st)
    st

/-- `saveBinaryFieldsForNodes` from `src/hooks/useBoardStorage.ts`. -/
def saveBinaryFieldsForNodes (boardId : String) (nodes : List SNode) (st : BinStore) : BinStore :=
  nodes.foldl (fun st node => saveNodeFields boardId node st) st

/-- The per-field step of `hydrateNodesFromIndexedDB`: load a binary field
from the store only when it is falsy in the metadata projection
(`if (!hydratedData[field])`), and splice the loaded value back in only
when it is truthy (`if (value)`). -/
def hydrateField (boardId : String) (st : BinStore) (nodeId : String)
    (d : NodeData) (field : String) : NodeData :=
  if truthy (dataLookup d field) then d
  else
    match storeGet st (makeKey boardId nodeId field) with
    | some v => if !v.isEmpty then dataSet d field (.vStr v) else d
    | none => d

/-- The per-node body of `hydrateNodesFromIndexedDB` from
`src/hooks/useBoardStorage.ts`. -/
def hydrateNode (boardId : String) (st : BinStore) (node : SNode) : SNode :=
  let fields := getBinaryFields node.type
  if fields.isEmpty then node
  else { node with data := fields.foldl (hydrateField boardId st node.id) node.data }

/-- `hydrateNodesFromIndexedDB` from `src/hooks/useBoardStorage.ts`. -/
def hydrateNodesFromIndexedDB (boardId : String) (nodes : List SNode) (st : BinStore) : List SNode :=
  nodes.map (hydrateNode boardId st)

/-! ## Map-level equality of data records

JS object identity for the round-trip claim: two data records are equal as
records when every property reads back the same value (hydration re-adds
stripped keys at the end of the record, which is invisible to property
reads). -/

/-- Decidable record equality of two data records: every key of either
record reads back the same value. -/
def dataEquiv (d d' : NodeData) : Bool :=
  (dataKeys d ++ dataKeys d').all (fun k => decide (dataLookup d k = dataLookup d' k))

/-- Node equality up to record equality of `data`. -/
def nodeEquiv (n n' : SNode) : Bool :=
  decide (n.id = n'.id) && decide (n.type = n'.type) &&
    decide (n.position = n'.position) && dataEquiv n.data n'.data

/-- Pointwise node equality of two node lists. -/
def nodesEquiv (l l' : List SNode) : Bool :=
  decide (l.length = l'.length) && (l.zip l').all (fun p => nodeEquiv p.1 p.2)

/-! ## Boards and the board registry (src/types/board.ts,
src/hooks/useBoardStorage.ts) -/

/-- `SerializedBoard` from `src/types/board.ts`. -/
structure SerializedBoard where
  id : String
  name : String
  nodes : List SNode
  connections : List Connection
  nodeIdCounter : Nat
  createdAt : String
  updatedAt : String
  deriving DecidableEq

/-- `WeaveBoardsStore` from `src/types/board.ts`: the registry record.
`boards` is a JS object keyed by board id (insertion ordered, unique
keys). -/
structure WeaveBoardsStore where
  version : Int
  lastActiveBoard : String
  boards : List (String × SerializedBoard)
  deriving DecidableEq

/-- Object property read `boards[id]`. -/
def objLookup : List (String × SerializedBoard) → String → Option SerializedBoard
  | [], _ => none
  | (k', b) :: rest, k => if k' = k then some b else objLookup rest k

/-- Object spread-update `{ ...boards, [id]: b }`: replaces an existing
key in place, otherwise appends the new key. -/
def objSet : List (String × SerializedBoard) → String → SerializedBoard →
    List (String × SerializedBoard)
  | [], k, b => [(k, b)]
  | (k', b') :: rest, k, b =>
    if k' = k then (k, b) :: rest else (k', b') :: objSet rest k b

/-- Rest-destructuring `const { [id]: _removed, ...remaining } = boards`. -/
def objDelete (boards : List (String × SerializedBoard)) (k : String) :
    List (String × SerializedBoard) :=
  boards.filter (fun p => p.1 ≠ k)

/-- `Object.keys(boards)`. -/
def keysOf (boards : List (String × SerializedBoard)) : List String :=
  boards.map (·.1)

/-- `createDefaultBoard` from `src/hooks/useBoardStorage.ts`; the fresh
UUID and the ISO timestamp are environment inputs. -/
def createDefaultBoard (newId now : String) : SerializedBoard :=
  { id := newId, name := "Untitled Board", nodes := [], connections := [],
    nodeIdCounter := 1, createdAt := now, updatedAt := now }

/-- The fresh fallback registry built by `loadOrCreateStore`: one default
board, active. -/
def freshStore (newId now : String) : WeaveBoardsStore :=
  let board := createDefaultBoard newId now
  { version := 1, lastActiveBoard := board.id, boards := [(board.id, board)] }

/-! ### loadOrCreateStore over untyped JSON -/

/-- A parsed JSON value (result of `JSON.parse`). -/
inductive JVal where
  | jnull
  | jbool (b : Bool)
  | jnum (n : ℚ)
  | jstr (s : String)
  | jarr (xs : List JVal)
  | jobj (fields : List (String × JVal))

/-- Property read on a parsed JSON object. -/
def jLookup : List (String × JVal) → String → Option JVal
  | [], _ => none
  | (k', v) :: rest, k => if k' = k then some v else jLookup rest k

/-- JS truthiness of a property read on a JSON value. -/
def jTruthy : Option JVal → Bool
  | none => false
  | some .jnull => false
  | some (.jbool b) => b
  | some (.jnum n) => n ≠ 0
  | some (.jstr s) => !s.isEmpty
  | some (.jarr _) => true
  | some (.jobj _) => true

/-- `isValidStore` from `src/hooks/useBoardStorage.ts`: `version` must be
a number, `lastActiveBoard` a string, `boards` a non-null object with at
least one key.  A non-object (or array, whose named properties are all
absent) fails. -/
def isValidStore : JVal → Bool
  | .jobj fields =>
    (match jLookup fields "version" with | some (.jnum _) => true | _ => false) &&
    (match jLookup fields "lastActiveBoard" with | some (.jstr _) => true | _ => false) &&
    (match jLookup fields "boards" with
     | some (.jobj boards) => !boards.isEmpty
     | _ => false)
  | _ => false

/-- The in-place repair `loadOrCreateStore` applies to a valid store whose
active pointer is dangling: `parsed.lastActiveBoard =
Object.keys(parsed.boards)[0]`. -/
def patchActiveBoard : JVal → JVal
  | .jobj fields =>
    (match jLookup fields "lastActiveBoard", jLookup fields "boards" with
     | some (.jstr lab), some (.jobj boards) =>
       if jTruthy (jLookup boards lab) then .jobj fields
       else
         match boards with
         | [] => .jobj fields
         | (k, _) :: _ =>
           .jobj (fields.map (fun p => if p.1 = "lastActiveBoard" then (p.1, .jstr k) else p))
     | _, _ => .jobj fields)
  | v => v

/-- What reached `loadOrCreateStore` from `localStorage` + `JSON.parse`:
no (or falsy) raw record, a parse failure, or a parsed JSON value. -/
inductive LoadInput where
  | missing
  | unparseable
  | parsed (v : JVal)

/-- The two shapes `loadOrCreateStore` can return: the parsed record
itself (cast, after the active-pointer patch) or a fresh typed registry. -/
inductive StoreLoadResult where
  | loaded (v : JVal)
  | fresh (s : WeaveBoardsStore)

/-- `loadOrCreateStore` from `src/hooks/useBoardStorage.ts`.  A thrown
`JSON.parse` error is caught and a missing/invalid record falls through;
both paths build the fresh one-board registry (the write-back of the
fresh registry is fire-and-forget and does not affect the result). -/
def loadOrCreateStore (input : LoadInput) (newId now : String) : StoreLoadResult :=
  match input with
  | .parsed v =>
    if isValidStore v then .loaded (patchActiveBoard v)
    else .fresh (freshStore newId now)
  | _ => .fresh (freshStore newId now)

/-! ### Registry lifecycle operations (useBoardStorage.ts) -/

/-- `createBoard`: fresh default board becomes active (also resets the
node-id counter to 1; the returned String is the new board id). -/
def createBoard (s : WeaveBoardsStore) (newId now : String) :
    WeaveBoardsStore × String :=
  let board := createDefaultBoard newId now
  ({ s with lastActiveBoard := board.id, boards := objSet s.boards board.id board },
   board.id)

/-- `switchBoard`: no-op when the id is unknown; otherwise marks the board
active.  The second component is the `resetNodeIdCounter` effect: the
counter value restored (none when the switch no-ops). -/
def switchBoard (s : WeaveBoardsStore) (boardId : String) :
    WeaveBoardsStore × Option Nat :=
  match objLookup s.boards boardId with
  | none => (s, none)
  | some board => ({ s with lastActiveBoard := boardId }, some board.nodeIdCounter)

/-- `renameBoard`: no-op when the id is unknown. -/
def renameBoard (s : WeaveBoardsStore) (boardId newName now : String) :
    WeaveBoardsStore :=
  match objLookup s.boards boardId with
  | none => s
  | some board =>
    let renamed := { board with name := newName, updatedAt := now }
    { s with boards := objSet s.boards boardId renamed }

/-- `deleteBoard`: refuses when at most one board exists; otherwise
removes the board, reassigning the active pointer to the first remaining
key when the deleted board was active.  (`Object.keys(remaining)[0]` is
undefined on an empty object; that corner is unreachable under the
registry invariant and is modelled with `headD ""`.) -/
def deleteBoard (s : WeaveBoardsStore) (boardId : String) :
    WeaveBoardsStore × Bool :=
  if (keysOf s.boards).length ≤ 1 then (s, false)
  else
    let remaining := objDelete s.boards boardId
    let newActive :=
      if s.lastActiveBoard = boardId then (keysOf remaining).headD ""
      else s.lastActiveBoard
    ({ s with lastActiveBoard := newActive, boards := remaining }, true)

/-- The registry invariant: at least one board, JS-object key uniqueness,
and the active pointer names a present board. -/
def StoreInv (s : WeaveBoardsStore) : Prop :=
  s.boards ≠ [] ∧ (keysOf s.boards).Nodup ∧ s.lastActiveBoard ∈ keysOf s.boards

/-! ### Metadata persistence and the quota-failure path -/

/-- Outcome of `localStorage.setItem` on the serialized registry. -/
inductive SetItemResult where
  | ok
  | quotaExceeded
  | otherError
  deriving DecidableEq

/-- The storage-full warning set by `persistToLocalStorage`. -/
def quotaErrorMessage : String :=
  "Storage is full. Some changes may not be saved. Try removing large images or PDFs."

/-- The generic warning set by `persistToLocalStorage` for other failures. -/
def genericErrorMessage : String := "Failed to save board data."

/-- `persistToLocalStorage` from `src/hooks/useBoardStorage.ts`: the
resulting `storageError` state (cleared on success, the quota message on
`QuotaExceededError`, the generic message otherwise). -/
def persistToLocalStorage : SetItemResult → Option String
  | .ok => none
  | .quotaExceeded => some quotaErrorMessage
  | .otherError => some genericErrorMessage

/-- `stripLoadingFromLinkCards` from `src/hooks/useBoardStorage.ts`. -/
def stripLoadingFromLinkCards (nodes : List SNode) : List SNode :=
  nodes.map (fun node =>
    if node.type = "linkCard" && truthy (dataLookup node.data "loading") then
      { node with data := dataSet node.data "loading" (.vBool false) }
    else node)

/-- `saveCurrentBoard` from `src/hooks/useBoardStorage.ts`: strips the
link-card loading flag and the binary fields, writes the board back into
the registry under the active id, and persists; the persistence outcome
only affects the `storageError` state, never the returned registry.
(The spread of a missing board is unreachable under the registry
invariant and is modelled with a default shell.) -/
def saveCurrentBoard (store : WeaveBoardsStore) (nodes : List SNode)
    (conns : List Connection) (counter : Nat) (now : String)
    (r : SetItemResult) : WeaveBoardsStore × Option String :=
  let fullNodes := stripLoadingFromLinkCards nodes
  let boardId := store.lastActiveBoard
  let strippedNodes := fullNodes.map stripBinaryFields
  let prevBoard := (objLookup store.boards boardId).getD (createDefaultBoard boardId now)
  let savedBoard :=
    { prevBoard with
        nodes := strippedNodes
        connections := conns
        nodeIdCounter := counter
        updatedAt := now }
  let nextStore := { store with boards := objSet store.boards boardId savedBoard }
  (nextStore, persistToLocalStorage r)

/-! ### Hydration selection (stale hydration results) -/

/-- The `currentBoard` selection in `useBoardStorage`: the hydrated board
is exposed only when its tagged board id equals the active pointer;
otherwise the raw stored board is exposed. -/
def currentBoard (store : WeaveBoardsStore) (hydratedBoard : Option SerializedBoard) :
    Option SerializedBoard :=
  match hydratedBoard with
  | some hb =>
    if hb.id = store.lastActiveBoard then some hb
    else objLookup store.boards store.lastActiveBoard
  | none => objLookup store.boards store.lastActiveBoard

/-- The pieces of `useBoardStorage` state the stale-hydration guard reads. -/
structure UiState where
  store : WeaveBoardsStore
  hydratedBoard : Option SerializedBoard
  deriving DecidableEq

/-- An in-flight hydration resolving: `setHydratedBoard({ ...board,
nodes: hydratedNodes })` stores the result tagged with the id of the
board it was requested for. -/
def completeHydration (s : UiState) (result : SerializedBoard) : UiState :=
  { s with hydratedBoard := some result }

/-- A board switch as seen by the selection state. -/
def doSwitchBoard (s : UiState) (boardId : String) : UiState :=
  { s with store := (switchBoard s.store boardId).1 }

/-! ## Node-id allocation (src/utils/nodeId.ts)

The module-level mutable `counter` is threaded explicitly.  JS
`String(counter)` is the decimal numeral, embedded with an explicit
fuel-structural conversion so that evaluation stays kernel-reducible. -/

/-- One decimal digit character. -/
def decDigitChar (d : Nat) : Char :=
  match d with
  | 0 => '0' | 1 => '1' | 2 => '2' | 3 => '3' | 4 => '4'
  | 5 => '5' | 6 => '6' | 7 => '7' | 8 => '8' | _ => '9'

/-- Decimal digits of `n`, most significant first (`[]` for 0); the fuel
argument only bounds the recursion and any fuel `≥ n` is exact. -/
def natDigits : Nat → Nat → List Char
  | 0, _ => []
  | fuel + 1, n => if n = 0 then [] else natDigits fuel (n / 10) ++ [decDigitChar (n % 10)]

/-- JS `String(n)` for a non-negative integer: its decimal numeral. -/
def natToDecimalString (n : Nat) : String :=
  if n = 0 then "0" else ⟨natDigits n n⟩

/-- `generateNodeId` from `src/utils/nodeId.ts`: increments the counter,
then returns the new counter value as a string. -/
def generateNodeId (counter : Nat) : String × Nat :=
  (natToDecimalString (counter + 1), counter + 1)

/-- `n` successive `generateNodeId` calls from a given counter state:
the issued ids in issuance order, and the final counter
(`getNodeIdCounter`). -/
def issueIds : Nat → Nat → List String × Nat
  | c, 0 => ([], c)
  | c, n + 1 =>
    let (id, c') := generateNodeId c
    let (rest, c'') := issueIds c' n
    (id :: rest, c'')

/-- Numeric value of a decimal id string (left inverse of the conversion,
used to state numeric monotonicity of issued ids). -/
def decodeDecimal (s : String) : Nat :=
  s.data.foldl (fun a c => a * 10 + (c.toNat - 48)) 0

/-! ## The incremental analysis controller (WeaveButton.tsx,
src/api/claude.ts) -/

/-- The `WeaveState` UI state machine of `WeaveButton.tsx`. -/
inductive WeaveState where
  | idle | loading | error | noNew
  deriving DecidableEq

/-- `PLACEHOLDER_TEXT` from `src/api/claude.ts`. -/
def placeholderText : String :=
  "Drag me around the canvas. Zoom and pan to explore."

/-- `isEmptyNode` from `src/api/claude.ts`: the eligibility predicate of
the collaborator call (placeholder text cards are empty).  A non-string
`text` value would throw in JS on `.trim()`; data records built by the
application always hold strings there, and the corner is modelled as
empty. -/
def isEmptyNode (n : SNode) : Bool :=
  match n.type with
  | "textCard" =>
    match dataLookup n.data "text" with
    | some (.vStr s) => (jsTrim s).isEmpty || jsTrim s = placeholderText
    | _ => true
  | "imageCard" => !truthy (dataLookup n.data "imageDataUrl")
  | "linkCard" => truthy (dataLookup n.data "loading") || !truthy (dataLookup n.data "url")
  | "pdfCard" => !truthy (dataLookup n.data "pdfDataUrl")
  | _ => true

/-- The inline content check of `handleWeave`'s short-circuit guard in
`WeaveButton.tsx` (note: unlike `isEmptyNode`, it does not exclude the
placeholder text card). -/
def isContentNode (n : SNode) : Bool :=
  if n.type.isEmpty then false
  else
    match n.type with
    | "textCard" =>
      match dataLookup n.data "text" with
      | some v => truthy (some v) && !(jsTrim (jsString v)).isEmpty
      | none => false
    | "imageCard" => truthy (dataLookup n.data "imageDataUrl")
    | "linkCard" => !truthy (dataLookup n.data "loading") && truthy (dataLookup n.data "url")
    | "pdfCard" => truthy (dataLookup n.data "pdfDataUrl")
    | _ => false

/-- `connections.filter((c) => c.mode === mode)` in `handleWeave`. -/
def modeConnections (conns : List Connection) (mode : WeaveMode) : List Connection :=
  conns.filter (fun c => c.mode = some mode)

/-- JS `Set.add`: append when absent. -/
def addUnique (s : List String) (x : String) : List String :=
  if x ∈ s then s else s ++ [x]

/-- The `connectedNodes` set of `handleWeave`: every canonicalized
endpoint of the layer's existing connections. -/
def connectedNodeSet (modeConns : List Connection) : List String :=
  modeConns.foldl
    (fun s c => addUnique (addUnique s (canonicalizeNodeId c.fromId)) (canonicalizeNodeId c.toId))
    []

/-- The `contentNodeIds` computation of `handleWeave`'s guard:
canonicalized ids of nodes passing the inline content check. -/
def contentNodeIds (nodes : List SNode) : List String :=
  (nodes.filter isContentNode).map (fun n => canonicalizeNodeId n.id)

/-- The eligibility set per the spec's wording for the analysis round,
built from `analyzeCanvas`'s `contentNodes` filter in `src/api/claude.ts`
(one of the four content kinds and not `isEmptyNode`). -/
def eligibleNodeIds (nodes : List SNode) : List String :=
  (nodes.filter (fun n =>
      (n.type = "textCard" || n.type = "imageCard" || n.type = "linkCard" ||
        n.type = "pdfCard") && !isEmptyNode n)).map
    (fun n => canonicalizeNodeId n.id)

/-- The candidate filter of `handleWeave`: first run keeps all candidates,
a re-run keeps a candidate iff at least one canonicalized endpoint is not
already connected for this layer. -/
def keepCandidates (isFirstRun : Bool) (connected : List String)
    (candidates : List Connection) : List Connection :=
  if isFirstRun then candidates
  else
    candidates.filter (fun c =>
      let fromConnected := (canonicalizeNodeId c.fromId) ∈ connected
      let toConnected := (canonicalizeNodeId c.toId) ∈ connected
      ¬fromConnected ∨ ¬toConnected)

/-- The observable outcome of one `handleWeave` invocation: whether
`analyzeCanvas` was invoked, the UI state reported at the end of the
invocation (before the display timeout resets it to idle), and the
`onResult` payload when the callback fired. -/
structure WeaveOutcome where
  apiCalled : Bool
  finalState : WeaveState
  resultPayload : Option (List Connection)
  deriving DecidableEq

/-- `handleWeave` from `WeaveButton.tsx` for an invocation that is not
rejected by the per-layer in-flight lock.  The external collaborator
(`analyzeCanvas`, including its parse fallback) is the `collab`
parameter: `Except.error` is a network/parse failure, `Except.ok` the
mode-tagged candidate list it returns. -/
def handleWeave (nodes : List SNode) (mode : WeaveMode) (conns : List Connection)
    (collab : Except Unit (List Connection)) : WeaveOutcome :=
  let modeConns := modeConnections conns mode
  let isFirstRun : Bool := modeConns.length == 0
  let connected := connectedNodeSet modeConns
  let ids := contentNodeIds nodes
  if isFirstRun = false ∧ 2 ≤ ids.length ∧ ids.all (fun id => connected.contains id) = true then
    { apiCalled := false, finalState := .noNew, resultPayload := none }
  else
    match collab with
    | .error _ => { apiCalled := true, finalState := .error, resultPayload := none }
    | .ok result =>
      let newConnections := keepCandidates isFirstRun connected result
      if newConnections.length = 0 then
        { apiCalled := true, finalState := .noNew, resultPayload := none }
      else
        { apiCalled := true, finalState := .idle, resultPayload := some newConnections }

/-- Modelled from the spec: the parent component's connection state update
(the current `App` component is not among the sources).  Kept candidates
are appended to the in-memory connection list via the `onResult` callback
and only via it; when the callback does not fire the list is unchanged. -/
def applyOutcome (conns : List Connection) (o : WeaveOutcome) : List Connection :=
  match o.resultPayload with
  | some newConns => conns ++ newConns
  | none => conns

/-! ## Staggered parallel-edge geometry (useStaggeredEdges.ts) -/

/-- JS string comparison (`<` on strings, used by `Array.sort()`):
lexicographic on character codes. -/
def charListLe : List Char → List Char → Bool
  | [], _ => true
  | _ :: _, [] => false
  | a :: as, b :: bs =>
    if a.toNat < b.toNat then true
    else if b.toNat < a.toNat then false
    else charListLe as bs

/-- The unordered pair key of a connection:
`[source, target].sort().join('::')` on canonicalized endpoints. -/
def pairKey (c : Connection) : String :=
  let source := canonicalizeNodeId c.fromId
  let target := canonicalizeNodeId c.toId
  if charListLe source.data target.data then source ++ "::" ++ target
  else target ++ "::" ++ source

/-- `pairGroups.get(key)!.push(index)` on the insertion-ordered JS `Map`:
append the index to its key's bucket, creating the bucket at the end on
first sight. -/
def addToGroup : List (String × List Nat) → String → Nat → List (String × List Nat)
  | [], key, i => [(key, [i])]
  | (k, is) :: rest, key, i =>
    if k = key then (k, is ++ [i]) :: rest else (k, is) :: addToGroup rest key i

/-- Bucket lookup in the pair-group map (`[]` for an absent key). -/
def groupLookup : List (String × List Nat) → String → List Nat
  | [], _ => []
  | (k, is) :: rest, key => if k = key then is else groupLookup rest key

/-- The `pairGroups` map built by the first `forEach` of
`useStaggeredEdges`. -/
def buildPairGroups (conns : List Connection) : List (String × List Nat) :=
  conns.enum.foldl (fun m p => addToGroup m (pairKey p.2) p.1) []

/-- The slice of a rendered edge the geometry claims are about: the
canonicalized endpoints, the connection index, and the stagger offset
(`edgeOffset`); presentational pass-through fields (label, explanation,
category, strength, surprise, mode, active layer) are carried by the
connection itself. -/
structure WeaveEdgeInfo where
  source : String
  target : String
  connectionIndex : Nat
  edgeOffset : ℚ
  deriving DecidableEq

/-- The arrow function mapped over `connections` in `useStaggeredEdges`:
one indexed connection to its rendered edge slice. -/
def staggeredEdgeOf (pairGroups : List (String × List Nat))
    (p : Nat × Connection) : WeaveEdgeInfo :=
  let index := p.1
  let conn := p.2
  let source := canonicalizeNodeId conn.fromId
  let target := canonicalizeNodeId conn.toId
  let group := groupLookup pairGroups (pairKey conn)
  let posInGroup := group.indexOf index
  let total := group.length
  let edgeOffset : ℚ :=
    if total ≤ 1 then 0 else (posInGroup : ℚ) - ((total : ℚ) - 1) / 2
  { source := source, target := target, connectionIndex := index,
    edgeOffset := edgeOffset }

/-- `useStaggeredEdges` from `src/hooks/useStaggeredEdges.ts`: group
connections by unordered canonicalized pair key and assign each member of
a group of size `total` the centered offset
`posInGroup - (total - 1) / 2` (0 for a singleton group). -/
def useStaggeredEdges (conns : List Connection) : List WeaveEdgeInfo :=
  let pairGroups := buildPairGroups conns
  conns.enum.map (staggeredEdgeOf pairGroups)

/-- The indices of the connections sharing one pair key, in insertion
order (what the bucket of `pairGroups` holds for that key). -/
def groupIndices (conns : List Connection) (key : String) : List Nat :=
  (conns.enum.filter (fun p => pairKey p.2 = key)).map (·.1)

/-! ## Helper lemmas: JS-object operations on the boards map -/

theorem objLookup_objSet_self (boards : List (String × SerializedBoard))
    (k : String) (b : SerializedBoard) :
    objLookup (objSet boards k b) k = some b := by
  induction boards with
  | nil => simp [objSet, objLookup]
  | cons p rest ih =>
    by_cases h : p.1 = k
    · simp [objSet, h, objLookup]
    · simp [objSet, h, objLookup, ih]

theorem objSet_ne_nil (boards : List (String × SerializedBoard))
    (k : String) (b : SerializedBoard) : objSet boards k b ≠ [] := by
  cases boards with
  | nil => simp [objSet]
  | cons p rest =>
    by_cases h : p.1 = k <;> simp [objSet, h]

theorem keysOf_cons (p : String × SerializedBoard)
    (rest : List (String × SerializedBoard)) :
    keysOf (p :: rest) = p.1 :: keysOf rest := rfl

theorem keysOf_objSet (boards : List (String × SerializedBoard))
    (k : String) (b : SerializedBoard) :
    keysOf (objSet boards k b) =
      if k ∈ keysOf boards then keysOf boards else keysOf boards ++ [k] := by
  induction boards with
  | nil => simp [objSet, keysOf]
  | cons p rest ih =>
    by_cases hp : p.1 = k
    · subst hp
      simp [objSet, keysOf_cons]
    · rw [show objSet (p :: rest) k b = p :: objSet rest k b by simp [objSet, hp]]
      rw [keysOf_cons, keysOf_cons, ih]
      have hne : ¬(k = p.1) := fun h => hp h.symm
      by_cases hk : k ∈ keysOf rest
      · simp [hk, hne]
      · simp [hk, hne]

theorem mem_keysOf_objSet (boards : List (String × SerializedBoard))
    (k x : String) (b : SerializedBoard) :
    x ∈ keysOf (objSet boards k b) ↔ x ∈ keysOf boards ∨ x = k := by
  rw [keysOf_objSet]
  by_cases hk : k ∈ keysOf boards
  · rw [if_pos hk]
    constructor
    · exact Or.inl
    · rintro (h | h)
      · exact h
      · exact h ▸ hk
  · rw [if_neg hk]
    simp

theorem nodup_keysOf_objSet (boards : List (String × SerializedBoard))
    (k : String) (b : SerializedBoard) (h : (keysOf boards).Nodup) :
    (keysOf (objSet boards k b)).Nodup := by
  rw [keysOf_objSet]
  by_cases hk : k ∈ keysOf boards
  · rwa [if_pos hk]
  · rw [if_neg hk]
    simp [List.nodup_append, h, hk]

theorem keysOf_mem_of_objLookup (boards : List (String × SerializedBoard))
    (x : String) (b : SerializedBoard) (h : objLookup boards x = some b) :
    x ∈ keysOf boards := by
  induction boards with
  | nil => simp [objLookup] at h
  | cons p rest ih =>
    by_cases hp : p.1 = x
    · rw [keysOf_cons, hp]
      exact List.mem_cons_self x (keysOf rest)
    · simp only [objLookup, if_neg hp] at h
      rw [keysOf_cons]
      exact List.mem_cons_of_mem _ (ih h)

theorem objLookup_eq_some_of_mem (boards : List (String × SerializedBoard))
    (x : String) (h : x ∈ keysOf boards) :
    ∃ b, objLookup boards x = some b := by
  induction boards with
  | nil => simp [keysOf] at h
  | cons p rest ih =>
    by_cases hp : p.1 = x
    · exact ⟨p.2, by simp [objLookup, hp]⟩
    · rw [keysOf_cons, List.mem_cons] at h
      rcases h with h | h
      · exact absurd h.symm hp
      · simpa [objLookup, if_neg hp] using ih h

theorem keysOf_objDelete (boards : List (String × SerializedBoard)) (k : String) :
    keysOf (objDelete boards k) = (keysOf boards).filter (fun x => x ≠ k) := by
  induction boards with
  | nil => rfl
  | cons p rest ih =>
    by_cases hp : p.1 = k
    · rw [show objDelete (p :: rest) k = objDelete rest k by
        simp [objDelete, List.filter_cons, hp]]
      rw [keysOf_cons, List.filter_cons]
      simp [hp, ih]
    · rw [show objDelete (p :: rest) k = p :: objDelete rest k by
        simp [objDelete, List.filter_cons, hp]]
      rw [keysOf_cons, keysOf_cons, List.filter_cons]
      simp [hp, ih]

theorem ne_of_mem_keysOf_objDelete (boards : List (String × SerializedBoard))
    (k x : String) (h : x ∈ keysOf (objDelete boards k)) : x ≠ k := by
  rw [keysOf_objDelete] at h
  exact of_decide_eq_true (List.mem_filter.mp h).2

theorem headD_mem_of_ne_nil {l : List String} (h : l ≠ []) (d : String) :
    l.headD d ∈ l := by
  cases l with
  | nil => exact absurd rfl h
  | cons a t => simp [List.headD]

theorem exists_mem_ne_of_two_le (l : List String) (id : String)
    (hnd : l.Nodup) (h : 2 ≤ l.length) : ∃ x, x ∈ l ∧ x ≠ id := by
  match l, hnd, h with
  | a :: b :: t, hnd, _ =>
    have hab : a ≠ b := by
      rw [List.nodup_cons] at hnd
      exact fun e => hnd.1 (e ▸ List.mem_cons_self b t)
    by_cases ha : a = id
    · exact ⟨b, by simp, fun hb => hab (by rw [ha, hb])⟩
    · exact ⟨a, by simp, ha⟩

/-- C4: for every content of the metadata store — a missing (or falsy)
raw record, unparseable text, or a parsed record failing `isValidStore` —
`loadOrCreateStore` returns (it is total, nothing escapes), and on any
such validation failure it returns the fresh registry holding exactly one
empty default board whose id is the active-board pointer. -/
theorem loadOrCreateStore_fallback (input : LoadInput) (newId now : String)
    (hfail : input = .missing ∨ input = .unparseable ∨
      ∃ v, input = .parsed v ∧ isValidStore v = false) :
    loadOrCreateStore input newId now = .fresh (freshStore newId now) ∧
    (freshStore newId now).boards.length = 1 ∧
    (freshStore newId now).lastActiveBoard = newId ∧
    objLookup (freshStore newId now).boards (freshStore newId now).lastActiveBoard =
      some (createDefaultBoard newId now) ∧
    (createDefaultBoard newId now).nodes = [] ∧
    (createDefaultBoard newId now).connections = [] := by
  refine ⟨?_, rfl, rfl, by simp [freshStore, objLookup, createDefaultBoard], rfl, rfl⟩
  rcases hfail with h | h | ⟨v, h, hv⟩
  · subst h; simp [loadOrCreateStore]
  · subst h; simp [loadOrCreateStore]
  · subst h; simp [loadOrCreateStore, hv]

theorem loadOrCreateStore_fallback_witness :
    loadOrCreateStore .unparseable "board-1" "2026-01-01" =
      .fresh (freshStore "board-1" "2026-01-01") ∧
    (freshStore "board-1" "2026-01-01").boards.length = 1 ∧
    (freshStore "board-1" "2026-01-01").lastActiveBoard = "board-1" ∧
    objLookup (freshStore "board-1" "2026-01-01").boards
        (freshStore "board-1" "2026-01-01").lastActiveBoard =
      some (createDefaultBoard "board-1" "2026-01-01") ∧
    (createDefaultBoard "board-1" "2026-01-01").nodes = [] ∧
    (createDefaultBoard "board-1" "2026-01-01").connections = [] :=
  loadOrCreateStore_fallback .unparseable "board-1" "2026-01-01" (Or.inr (Or.inl rfl))

/-- C5: every lifecycle operation preserves the registry invariant
(at least one board, unique keys, active pointer present); `deleteBoard`
returns `false` and changes nothing when only one board exists, and when
it deletes the active board it reassigns the active pointer to a
remaining board and returns `true`. -/
theorem boardLifecycle_preserves_invariant
    (s : WeaveBoardsStore) (newId now newName boardId : String)
    (hinv : StoreInv s) :
    StoreInv (createBoard s newId now).1 ∧
    StoreInv (switchBoard s boardId).1 ∧
    StoreInv (renameBoard s boardId newName now) ∧
    StoreInv (deleteBoard s boardId).1 ∧
    ((keysOf s.boards).length = 1 → deleteBoard s boardId = (s, false)) ∧
    (2 ≤ (keysOf s.boards).length → boardId = s.lastActiveBoard →
      (deleteBoard s boardId).2 = true ∧
      (deleteBoard s boardId).1.boards = objDelete s.boards boardId ∧
      (deleteBoard s boardId).1.lastActiveBoard ∈ keysOf (objDelete s.boards boardId) ∧
      (deleteBoard s boardId).1.lastActiveBoard ≠ boardId) := by
  obtain ⟨hne, hnd, hmem⟩ := hinv
  refine ⟨?_, ?_, ?_, ?_, ?_, ?_⟩
  · -- createBoard
    refine ⟨objSet_ne_nil _ _ _, nodup_keysOf_objSet _ _ _ hnd, ?_⟩
    rw [show (createBoard s newId now).1.lastActiveBoard = newId from rfl]
    rw [show (createBoard s newId now).1.boards =
      objSet s.boards newId (createDefaultBoard newId now) from rfl]
    exact (mem_keysOf_objSet _ _ _ _).mpr (Or.inr rfl)
  · -- switchBoard
    unfold switchBoard
    cases h : objLookup s.boards boardId with
    | none => exact ⟨hne, hnd, hmem⟩
    | some b => exact ⟨hne, hnd, keysOf_mem_of_objLookup _ _ _ h⟩
  · -- renameBoard
    unfold renameBoard
    cases h : objLookup s.boards boardId with
    | none => exact ⟨hne, hnd, hmem⟩
    | some b =>
      exact ⟨objSet_ne_nil _ _ _, nodup_keysOf_objSet _ _ _ hnd,
        (mem_keysOf_objSet _ _ _ _).mpr (Or.inl hmem)⟩
  · -- deleteBoard preserves the invariant
    by_cases hlen : (keysOf s.boards).length ≤ 1
    · rw [show (deleteBoard s boardId).1 = s by simp [deleteBoard, hlen]]
      exact ⟨hne, hnd, hmem⟩
    · have hlen2 : 2 ≤ (keysOf s.boards).length := by omega
      obtain ⟨x, hxmem, hxne⟩ := exists_mem_ne_of_two_le _ boardId hnd hlen2
      have hxfil : x ∈ keysOf (objDelete s.boards boardId) := by
        rw [keysOf_objDelete]
        exact List.mem_filter.mpr ⟨hxmem, by simpa using hxne⟩
      have hkeysne : keysOf (objDelete s.boards boardId) ≠ [] :=
        List.ne_nil_of_mem hxfil
      have hremne : objDelete s.boards boardId ≠ [] := by
        intro h
        exact hkeysne (by rw [h]; rfl)
      have hnd' : (keysOf (objDelete s.boards boardId)).Nodup := by
        rw [keysOf_objDelete]
        exact hnd.filter _
      rw [show (deleteBoard s boardId).1 =
        { s with
            lastActiveBoard :=
              if s.lastActiveBoard = boardId then
                (keysOf (objDelete s.boards boardId)).headD ""
              else s.lastActiveBoard,
            boards := objDelete s.boards boardId } by simp [deleteBoard, hlen]]
      refine ⟨hremne, hnd', ?_⟩
      by_cases hact : s.lastActiveBoard = boardId
      · simpa [hact] using headD_mem_of_ne_nil hkeysne ""
      · rw [if_neg hact]
        rw [keysOf_objDelete]
        exact List.mem_filter.mpr ⟨hmem, by simpa using hact⟩
  · -- refusing to delete the last board
    intro h1
    have hlen : (keysOf s.boards).length ≤ 1 := by omega
    simp [deleteBoard, hlen]
  · -- deleting the active board
    intro hlen2 hact
    have hlen : ¬(keysOf s.boards).length ≤ 1 := by omega
    obtain ⟨x, hxmem, hxne⟩ := exists_mem_ne_of_two_le _ boardId hnd hlen2
    have hxfil : x ∈ keysOf (objDelete s.boards boardId) := by
      rw [keysOf_objDelete]
      exact List.mem_filter.mpr ⟨hxmem, by simpa using hxne⟩
    have hkeysne : keysOf (objDelete s.boards boardId) ≠ [] :=
      List.ne_nil_of_mem hxfil
    have hhead : (keysOf (objDelete s.boards boardId)).headD "" ∈
        keysOf (objDelete s.boards boardId) := headD_mem_of_ne_nil hkeysne ""
    have hheadne : (keysOf (objDelete s.boards boardId)).headD "" ≠ boardId :=
      ne_of_mem_keysOf_objDelete _ _ _ hhead
    refine ⟨by simp [deleteBoard, hlen], by simp [deleteBoard, hlen], ?_, ?_⟩
    · rw [show (deleteBoard s boardId).1.lastActiveBoard =
        (keysOf (objDelete s.boards boardId)).headD "" by
          simp [deleteBoard, hlen, hact.symm]]
      exact hhead
    · rw [show (deleteBoard s boardId).1.lastActiveBoard =
        (keysOf (objDelete s.boards boardId)).headD "" by
          simp [deleteBoard, hlen, hact.symm]]
      exact hheadne

theorem boardLifecycle_preserves_invariant_witness :
    let s0 : WeaveBoardsStore :=
      { version := 1, lastActiveBoard := "a",
        boards := [("a", createDefaultBoard "a" "t0"), ("b", createDefaultBoard "b" "t0")] }
    StoreInv (createBoard s0 "c" "t1").1 ∧
    StoreInv (switchBoard s0 "a").1 ∧
    StoreInv (renameBoard s0 "a" "renamed" "t1") ∧
    StoreInv (deleteBoard s0 "a").1 ∧
    (deleteBoard s0 "a").2 = true ∧
    (deleteBoard s0 "a").1.lastActiveBoard ∈ keysOf (objDelete s0.boards "a") ∧
    (deleteBoard s0 "a").1.lastActiveBoard ≠ "a" := by
  intro s0
  have h := boardLifecycle_preserves_invariant s0 "c" "t1" "renamed" "a"
    ⟨by decide, by decide, by decide⟩
  have h6 := h.2.2.2.2.2 (by decide) (by decide)
  exact ⟨h.1, h.2.1, h.2.2.1, h.2.2.2.1, h6.1, h6.2.2.1, h6.2.2.2⟩

/-- C7: when persisting the registry fails with the storage-capacity
(quota) error, the storage warning set is the dedicated storage-full
message, distinct from the generic failure message; and the returned
in-memory registry — including the item list just saved into the active
board — is exactly the one a successful save produces (no rollback). -/
theorem saveCurrentBoard_quota (store : WeaveBoardsStore) (nodes : List SNode)
    (conns : List Connection) (counter : Nat) (now : String) :
    (saveCurrentBoard store nodes conns counter now .quotaExceeded).2 =
      some quotaErrorMessage ∧
    quotaErrorMessage ≠ genericErrorMessage ∧
    (saveCurrentBoard store nodes conns counter now .quotaExceeded).1 =
      (saveCurrentBoard store nodes conns counter now .ok).1 ∧
    (∀ prev, objLookup store.boards store.lastActiveBoard = some prev →
      objLookup (saveCurrentBoard store nodes conns counter now .quotaExceeded).1.boards
          store.lastActiveBoard =
        some { prev with
                nodes := (stripLoadingFromLinkCards nodes).map stripBinaryFields,
                connections := conns,
                nodeIdCounter := counter,
                updatedAt := now }) := by
  refine ⟨rfl, by decide, rfl, ?_⟩
  intro prev hprev
  rw [show (saveCurrentBoard store nodes conns counter now .quotaExceeded).1.boards =
    objSet store.boards store.lastActiveBoard
      { (objLookup store.boards store.lastActiveBoard).getD
          (createDefaultBoard store.lastActiveBoard now) with
          nodes := (stripLoadingFromLinkCards nodes).map stripBinaryFields,
          connections := conns,
          nodeIdCounter := counter,
          updatedAt := now } from rfl]
  rw [hprev]
  exact objLookup_objSet_self _ _ _

theorem saveCurrentBoard_quota_witness :
    let b0 := createDefaultBoard "a" "t0"
    let s0 : WeaveBoardsStore :=
      { version := 1, lastActiveBoard := "a", boards := [("a", b0)] }
    let n0 : SNode := { id := "1", type := "textCard", position := (0, 0),
                        data := [("text", .vStr "hello")] }
    (saveCurrentBoard s0 [n0] [] 4 "t1" .quotaExceeded).2 = some quotaErrorMessage ∧
    quotaErrorMessage ≠ genericErrorMessage ∧
    (saveCurrentBoard s0 [n0] [] 4 "t1" .quotaExceeded).1 =
      (saveCurrentBoard s0 [n0] [] 4 "t1" .ok).1 ∧
    objLookup (saveCurrentBoard s0 [n0] [] 4 "t1" .quotaExceeded).1.boards "a" =
      some { b0 with
              nodes := (stripLoadingFromLinkCards [n0]).map stripBinaryFields,
              connections := [],
              nodeIdCounter := 4,
              updatedAt := "t1" } := by
  intro b0 s0 n0
  have h := saveCurrentBoard_quota s0 [n0] [] 4 "t1"
  exact ⟨h.1, h.2.1, h.2.2.1, h.2.2.2 b0 (by decide)⟩

/-- C9: a hydration result is exposed as the current board only when its
tagged board id equals the active-board pointer; a stale result (tagged
with a different id, e.g. because a later switch retargeted the active
pointer before the hydration resolved) is discarded and the stored board
of the newer switch target is exposed instead. -/
theorem staleHydration_discarded (st : WeaveBoardsStore) (hb : SerializedBoard)
    (s : UiState) (targetId : String) (stale : SerializedBoard) :
    (hb.id ≠ st.lastActiveBoard →
      currentBoard st (some hb) = objLookup st.boards st.lastActiveBoard) ∧
    (hb.id = st.lastActiveBoard → currentBoard st (some hb) = some hb) ∧
    (targetId ∈ keysOf s.store.boards → stale.id ≠ targetId →
      currentBoard (completeHydration (doSwitchBoard s targetId) stale).store
          (completeHydration (doSwitchBoard s targetId) stale).hydratedBoard =
        objLookup s.store.boards targetId) := by
  refine ⟨fun h => by simp [currentBoard, h], fun h => by simp [currentBoard, h], ?_⟩
  intro hmem hne
  obtain ⟨b, hb'⟩ := objLookup_eq_some_of_mem _ _ hmem
  simp only [completeHydration, doSwitchBoard, switchBoard, hb']
  simp [currentBoard, hne]
  exact hb'

theorem staleHydration_discarded_witness :
    let bA := createDefaultBoard "A" "t0"
    let bB := createDefaultBoard "B" "t0"
    let s : UiState :=
      { store := { version := 1, lastActiveBoard := "A",
                   boards := [("A", bA), ("B", bB)] },
        hydratedBoard := none }
    currentBoard (completeHydration (doSwitchBoard s "B") bA).store
        (completeHydration (doSwitchBoard s "B") bA).hydratedBoard =
      objLookup s.store.boards "B" := by
  intro bA bB s
  exact (staleHydration_discarded s.store bA s "B" bA).2.2 (by decide) (by decide)

/-- C2 counterexample: the claim ties eligibility to the collaborator's
`isEmptyNode` predicate (non-empty, non-placeholder content), but the
short-circuit guard of `handleWeave` uses an inline content check that
counts a placeholder text card as content.  With two connected eligible
items plus one placeholder card, the claim's antecedent holds (not a
first run, two eligible items, all eligible ids connected) yet the
collaborator is invoked. -/
theorem weave_shortCircuit_counterexample :
    let nA : SNode := { id := "1", type := "textCard", position := (0, 0),
                        data := [("text", .vStr "alpha")] }
    let nB : SNode := { id := "2", type := "textCard", position := (0, 0),
                        data := [("text", .vStr "beta")] }
    let nP : SNode := { id := "3", type := "textCard", position := (0, 0),
                        data := [("text", .vStr placeholderText)] }
    let conns : List Connection :=
      [{ fromId := "1", toId := "2", label := "l", explanation := "e",
         type := "t", strength := 1, surprise := 0, mode := some .weave }]
    ((modeConnections conns .weave).length == 0) = false ∧
    2 ≤ (eligibleNodeIds [nA, nB, nP]).length ∧
    (eligibleNodeIds [nA, nB, nP]).all
      (fun id => (connectedNodeSet (modeConnections conns .weave)).contains id) = true ∧
    (handleWeave [nA, nB, nP] .weave conns (.ok [])).apiCalled = true := by
  decide

/-- C2 (amended): with eligibility taken as the guard's own inline
content check (placeholder text counts as content), a non-first-run
invocation with at least two content items, all of whose canonicalized
ids are already connected for this layer, never invokes the collaborator
and reports the no-new state with no payload. -/
theorem weave_shortCircuit (nodes : List SNode) (mode : WeaveMode)
    (conns : List Connection) (collab : Except Unit (List Connection))
    (h1 : (modeConnections conns mode).length ≠ 0)
    (h2 : 2 ≤ (contentNodeIds nodes).length)
    (h3 : (contentNodeIds nodes).all
      (fun id => (connectedNodeSet (modeConnections conns mode)).contains id) = true) :
    handleWeave nodes mode conns collab =
      { apiCalled := false, finalState := .noNew, resultPayload := none } := by
  unfold handleWeave
  rw [if_pos ⟨by simpa using h1, h2, h3⟩]

theorem weave_shortCircuit_witness :
    let nA : SNode := { id := "1", type := "textCard", position := (0, 0),
                        data := [("text", .vStr "alpha")] }
    let nB : SNode := { id := "2", type := "textCard", position := (0, 0),
                        data := [("text", .vStr "beta")] }
    let conns : List Connection :=
      [{ fromId := "1", toId := "2", label := "l", explanation := "e",
         type := "t", strength := 1, surprise := 0, mode := some .weave }]
    handleWeave [nA, nB] .weave conns (.ok []) =
      { apiCalled := false, finalState := .noNew, resultPayload := none } := by
  intro nA nB conns
  exact weave_shortCircuit [nA, nB] .weave conns (.ok [])
    (by decide) (by decide) (by decide)

theorem handleWeave_ok_eq (nodes : List SNode) (mode : WeaveMode)
    (conns : List Connection) (result : List Connection) :
    handleWeave nodes mode conns (.ok result) =
      if ((modeConnections conns mode).length == 0) = false ∧
         2 ≤ (contentNodeIds nodes).length ∧
         ((contentNodeIds nodes).all fun id =>
           (connectedNodeSet (modeConnections conns mode)).contains id) = true then
        { apiCalled := false, finalState := .noNew, resultPayload := none }
      else if (keepCandidates ((modeConnections conns mode).length == 0)
          (connectedNodeSet (modeConnections conns mode)) result).length = 0 then
        { apiCalled := true, finalState := .noNew, resultPayload := none }
      else
        { apiCalled := true, finalState := .idle,
          resultPayload := some (keepCandidates ((modeConnections conns mode).length == 0)
            (connectedNodeSet (modeConnections conns mode)) result) } := rfl

theorem handleWeave_error_eq (nodes : List SNode) (mode : WeaveMode)
    (conns : List Connection) (e : Unit) :
    handleWeave nodes mode conns (.error e) =
      if ((modeConnections conns mode).length == 0) = false ∧
         2 ≤ (contentNodeIds nodes).length ∧
         ((contentNodeIds nodes).all fun id =>
           (connectedNodeSet (modeConnections conns mode)).contains id) = true then
        { apiCalled := false, finalState := .noNew, resultPayload := none }
      else
        { apiCalled := true, finalState := .error, resultPayload := none } := rfl

/-- C3: on a first run of a layer (no existing connections for it) every
candidate returned by the collaborator is kept; on a re-run a candidate
is kept iff at least one canonicalized endpoint is outside the layer's
connected-node set; kept candidates always form an order-preserving
sublist of the collaborator's list, and so does any payload the
invocation reports. -/
theorem weave_candidateFilter (nodes : List SNode) (mode : WeaveMode)
    (conns : List Connection) (candidates : List Connection) :
    ((modeConnections conns mode).length = 0 →
      keepCandidates ((modeConnections conns mode).length == 0)
        (connectedNodeSet (modeConnections conns mode)) candidates = candidates) ∧
    ((modeConnections conns mode).length ≠ 0 →
      ∀ c, c ∈ keepCandidates ((modeConnections conns mode).length == 0)
          (connectedNodeSet (modeConnections conns mode)) candidates ↔
        c ∈ candidates ∧
          (canonicalizeNodeId c.fromId ∉ connectedNodeSet (modeConnections conns mode) ∨
           canonicalizeNodeId c.toId ∉ connectedNodeSet (modeConnections conns mode))) ∧
    (keepCandidates ((modeConnections conns mode).length == 0)
        (connectedNodeSet (modeConnections conns mode)) candidates).Sublist candidates ∧
    (∀ l, (handleWeave nodes mode conns (.ok candidates)).resultPayload = some l →
      l.Sublist candidates) := by
  have hsub : (keepCandidates ((modeConnections conns mode).length == 0)
      (connectedNodeSet (modeConnections conns mode)) candidates).Sublist candidates := by
    by_cases h : (modeConnections conns mode).length = 0
    · simp [keepCandidates, h]
    · rw [show ((modeConnections conns mode).length == 0) = false by simpa using h]
      simp only [keepCandidates, if_neg (by simp : ¬(false = true))]
      exact List.filter_sublist _
  refine ⟨?_, ?_, hsub, ?_⟩
  · intro h
    simp [keepCandidates, h]
  · intro h c
    rw [show ((modeConnections conns mode).length == 0) = false by simpa using h]
    simp only [keepCandidates, if_neg (by simp : ¬(false = true)), List.mem_filter]
    simp
  · intro l hl
    rw [handleWeave_ok_eq] at hl
    by_cases hg : ((modeConnections conns mode).length == 0) = false ∧
        2 ≤ (contentNodeIds nodes).length ∧
        ((contentNodeIds nodes).all fun id =>
          (connectedNodeSet (modeConnections conns mode)).contains id) = true
    · rw [if_pos hg] at hl
      simp at hl
    · rw [if_neg hg] at hl
      by_cases hlen : (keepCandidates ((modeConnections conns mode).length == 0)
          (connectedNodeSet (modeConnections conns mode)) candidates).length = 0
      · rw [if_pos hlen] at hl
        simp at hl
      · rw [if_neg hlen] at hl
        simp only [Option.some.injEq] at hl
        exact hl ▸ hsub

theorem weave_candidateFilter_witness :
    let c1 : Connection :=
      { fromId := "1", toId := "2", label := "l", explanation := "e",
        type := "t", strength := 1, surprise := 0, mode := some .weave }
    keepCandidates ((modeConnections [] .weave).length == 0)
      (connectedNodeSet (modeConnections [] .weave)) [c1] = [c1] :=
  (weave_candidateFilter [] .weave [] _).1 rfl

/-- C10: an invocation that ends in the error state or the no-new state
(short-circuit skip, empty kept set, or collaborator failure) never fires
the result callback, so no candidate is appended and the in-memory
connection list is unchanged. -/
theorem weave_failure_leaves_connections (nodes : List SNode) (mode : WeaveMode)
    (conns : List Connection) (collab : Except Unit (List Connection))
    (hfail : (handleWeave nodes mode conns collab).finalState = .error ∨
      (handleWeave nodes mode conns collab).finalState = .noNew) :
    (handleWeave nodes mode conns collab).resultPayload = none ∧
    applyOutcome conns (handleWeave nodes mode conns collab) = conns := by
  suffices h : (handleWeave nodes mode conns collab).resultPayload = none by
    exact ⟨h, by simp [applyOutcome, h]⟩
  by_cases hg : ((modeConnections conns mode).length == 0) = false ∧
      2 ≤ (contentNodeIds nodes).length ∧
      ((contentNodeIds nodes).all fun id =>
        (connectedNodeSet (modeConnections conns mode)).contains id) = true
  · cases collab with
    | error e => rw [handleWeave_error_eq, if_pos hg]
    | ok result => rw [handleWeave_ok_eq, if_pos hg]
  · cases collab with
    | error e => rw [handleWeave_error_eq, if_neg hg]
    | ok result =>
      rw [handleWeave_ok_eq, if_neg hg] at hfail ⊢
      by_cases hlen : (keepCandidates ((modeConnections conns mode).length == 0)
          (connectedNodeSet (modeConnections conns mode)) result).length = 0
      · rw [if_pos hlen]
      · rw [if_neg hlen] at hfail
        simp at hfail

theorem weave_failure_leaves_connections_witness :
    (handleWeave [] .weave [] (.error ())).resultPayload = none ∧
    applyOutcome [] (handleWeave [] .weave [] (.error ())) = [] :=
  weave_failure_leaves_connections [] .weave [] (.error ()) (Or.inl (by decide))

/-! ## C8: node-id allocation -/

theorem decDigitChar_toNat (d : Nat) (h : d < 10) :
    (decDigitChar d).toNat - 48 = d := by
  interval_cases d <;> rfl

theorem foldl_decode_natDigits (fuel : Nat) :
    ∀ (n a : Nat), n ≤ fuel →
      (natDigits fuel n).foldl (fun x c => x * 10 + (c.toNat - 48)) a =
        a * 10 ^ (natDigits fuel n).length + n := by
  induction fuel with
  | zero =>
    intro n a h
    interval_cases n
    simp [natDigits]
  | succ fuel ih =>
    intro n a h
    by_cases hn : n = 0
    · simp [natDigits, hn]
    · have hdiv : n / 10 ≤ fuel := by
        have : n / 10 < n := Nat.div_lt_self (Nat.pos_of_ne_zero hn) (by omega)
        omega
      rw [show natDigits (fuel + 1) n =
        natDigits fuel (n / 10) ++ [decDigitChar (n % 10)] by
          simp [natDigits, hn]]
      rw [List.foldl_append, ih (n / 10) a hdiv]
      simp only [List.foldl_cons, List.foldl_nil, List.length_append,
        List.length_cons, List.length_nil]
      rw [decDigitChar_toNat (n % 10) (Nat.mod_lt n (by omega))]
      have hmod : n / 10 * 10 + n % 10 = n := by
        have := Nat.div_add_mod n 10
        omega
      ring_nf
      omega

theorem decodeDecimal_natToDecimalString (n : Nat) :
    decodeDecimal (natToDecimalString n) = n := by
  by_cases hn : n = 0
  · subst hn
    rfl
  · rw [show natToDecimalString n = ⟨natDigits n n⟩ by simp [natToDecimalString, hn]]
    show (natDigits n n).foldl (fun x c => x * 10 + (c.toNat - 48)) 0 = n
    rw [foldl_decode_natDigits n n 0 le_rfl]
    simp

theorem natToDecimalString_injective (m n : Nat)
    (h : natToDecimalString m = natToDecimalString n) : m = n := by
  have := congrArg decodeDecimal h
  rwa [decodeDecimal_natToDecimalString, decodeDecimal_natToDecimalString] at this

theorem issueIds_fst (n : Nat) : ∀ c : Nat,
    (issueIds c n).1 = (List.range n).map (fun k => natToDecimalString (c + k + 1)) := by
  induction n with
  | zero => intro c; rfl
  | succ n ih =>
    intro c
    rw [show (issueIds c (n + 1)).1 =
      natToDecimalString (c + 1) :: (issueIds (c + 1) n).1 from rfl]
    rw [ih (c + 1), List.range_succ_eq_map]
    simp only [List.map_cons, List.map_map]
    congr 1
    refine List.map_congr_left ?_
    intro k _
    simp only [Function.comp_apply]
    congr 1
    omega

theorem issueIds_snd (n : Nat) : ∀ c : Nat, (issueIds c n).2 = c + n := by
  induction n with
  | zero => intro c; rfl
  | succ n ih =>
    intro c
    rw [show (issueIds c (n + 1)).2 = (issueIds (c + 1) n).2 from rfl, ih]
    omega

/-- C8: `switchBoard` restores the persisted counter exactly; the ids a
run of the allocator issues are pairwise distinct and numerically
strictly increasing in issuance order; the counter after `n` issues is
the persisted `c + n`; and every id issued after reactivating from that
persisted counter is distinct from every id issued before. -/
theorem nodeId_allocation (c n m : Nat) (s : WeaveBoardsStore)
    (boardId : String) (b : SerializedBoard)
    (hlook : objLookup s.boards boardId = some b) :
    (switchBoard s boardId).2 = some b.nodeIdCounter ∧
    ((issueIds c n).1).Nodup ∧
    List.Pairwise (fun x y => decodeDecimal x < decodeDecimal y) (issueIds c n).1 ∧
    (issueIds c n).2 = c + n ∧
    (∀ x ∈ (issueIds c n).1, ∀ y ∈ (issueIds ((issueIds c n).2) m).1, x ≠ y) := by
  have hpair : List.Pairwise (fun x y => decodeDecimal x < decodeDecimal y)
      (issueIds c n).1 := by
    rw [issueIds_fst]
    rw [List.pairwise_map]
    refine List.Pairwise.imp ?_ (List.pairwise_lt_range n)
    intro a b hab
    rw [decodeDecimal_natToDecimalString, decodeDecimal_natToDecimalString]
    omega
  refine ⟨by simp [switchBoard, hlook], ?_, hpair, issueIds_snd n c, ?_⟩
  · exact List.Pairwise.imp (fun h heq => by subst heq; exact lt_irrefl _ h) hpair
  · intro x hx y hy
    rw [issueIds_fst, List.mem_map] at hx
    rw [issueIds_fst, List.mem_map] at hy
    obtain ⟨i, hi, hxi⟩ := hx
    obtain ⟨j, hj, hyj⟩ := hy
    rw [List.mem_range] at hi hj
    rw [issueIds_snd] at hyj
    intro heq
    have : c + i + 1 = c + n + j + 1 :=
      natToDecimalString_injective _ _ (by rw [hxi, hyj, heq])
    omega

theorem nodeId_allocation_witness :
    let b0 := { createDefaultBoard "a" "t0" with nodeIdCounter := 5 }
    let s0 : WeaveBoardsStore :=
      { version := 1, lastActiveBoard := "a", boards := [("a", b0)] }
    (switchBoard s0 "a").2 = some 5 ∧
    ((issueIds 0 3).1).Nodup ∧
    List.Pairwise (fun x y => decodeDecimal x < decodeDecimal y) (issueIds 0 3).1 ∧
    (issueIds 0 3).2 = 0 + 3 ∧
    (∀ x ∈ (issueIds 0 3).1, ∀ y ∈ (issueIds ((issueIds 0 3).2) 2).1, x ≠ y) := by
  intro b0 s0
  exact nodeId_allocation 0 3 2 s0 "a" b0 (by decide)

/-! ## C6: staggered parallel-edge offsets -/

theorem uint32_eq_of_toNat_eq (a b : UInt32) (h : a.toNat = b.toNat) : a = b := by
  have h2 : a.toBitVec = b.toBitVec := BitVec.toNat_injective h
  cases a; cases b
  simp only at h2
  rw [h2]

theorem char_eq_of_toNat_eq (a b : Char) (h : a.toNat = b.toNat) : a = b :=
  Char.eq_of_val_eq (uint32_eq_of_toNat_eq _ _ h)

theorem charListLe_total : ∀ a b : List Char, charListLe a b = true ∨ charListLe b a = true
  | [], _ => Or.inl rfl
  | _ :: _, [] => Or.inr rfl
  | x :: xs, y :: ys => by
    rcases Nat.lt_trichotomy x.toNat y.toNat with h | h | h
    · left; simp [charListLe, h]
    · have hxy : ¬ x.toNat < y.toNat := by omega
      have hyx : ¬ y.toNat < x.toNat := by omega
      rcases charListLe_total xs ys with ih | ih
      · left; simp [charListLe, hxy, hyx, ih]
      · right; simp [charListLe, hxy, hyx, ih]
    · right
      simp [charListLe, h]

theorem charListLe_antisymm : ∀ a b : List Char,
    charListLe a b = true → charListLe b a = true → a = b
  | [], [], _, _ => rfl
  | [], _ :: _, _, h2 => by simp [charListLe] at h2
  | _ :: _, [], h1, _ => by simp [charListLe] at h1
  | x :: xs, y :: ys, h1, h2 => by
    by_cases hxy : x.toNat < y.toNat
    · exfalso
      have hyx : ¬ y.toNat < x.toNat := by omega
      simp [charListLe, hyx, hxy] at h2
    · by_cases hyx : y.toNat < x.toNat
      · exfalso
        simp [charListLe, hyx, hxy] at h1
      · have hx : x = y := char_eq_of_toNat_eq x y (by omega)
        have h1' : charListLe xs ys = true := by
          simpa [charListLe, hxy, hyx] using h1
        have h2' : charListLe ys xs = true := by
          simpa [charListLe, hxy, hyx] using h2
        rw [hx, charListLe_antisymm xs ys h1' h2']

theorem pairKey_swap (c : Connection) :
    pairKey { c with fromId := c.toId, toId := c.fromId } = pairKey c := by
  simp only [pairKey]
  set s := canonicalizeNodeId c.fromId with hs
  set t := canonicalizeNodeId c.toId with ht
  by_cases h1 : charListLe s.data t.data = true
  · by_cases h2 : charListLe t.data s.data = true
    · have hst : s = t := String.ext (charListLe_antisymm _ _ h1 h2)
      rw [if_pos h2, if_pos h1, hst]
    · rw [if_neg h2, if_pos h1]
  · have h2 : charListLe t.data s.data = true := (charListLe_total _ _).resolve_left h1
    rw [if_pos h2, if_neg h1]

theorem groupLookup_addToGroup (m : List (String × List Nat)) (key k : String) (i : Nat) :
    groupLookup (addToGroup m key i) k =
      if key = k then groupLookup m k ++ [i] else groupLookup m k := by
  induction m with
  | nil =>
    by_cases h : key = k
    · simp [addToGroup, groupLookup, h]
    · simp [addToGroup, groupLookup, h]
  | cons p rest ih =>
    obtain ⟨a, is⟩ := p
    by_cases ha : a = key
    · subst ha
      rw [show addToGroup ((a, is) :: rest) a i = (a, is ++ [i]) :: rest by
        simp [addToGroup]]
      by_cases hk : a = k
      · subst hk
        simp [groupLookup]
      · simp [groupLookup, hk]
    · rw [show addToGroup ((a, is) :: rest) key i = (a, is) :: addToGroup rest key i by
        simp [addToGroup, ha]]
      by_cases hk : a = k
      · subst hk
        have : ¬ key = a := fun h => ha h.symm
        simp [groupLookup, this]
      · simp [groupLookup, hk, ih]

theorem groupLookup_foldl (l : List (Nat × Connection)) :
    ∀ (m : List (String × List Nat)) (k : String),
    groupLookup (l.foldl (fun m p => addToGroup m (pairKey p.2) p.1) m) k =
      groupLookup m k ++ (l.filter (fun p => pairKey p.2 = k)).map (·.1) := by
  induction l with
  | nil => intro m k; simp
  | cons p l ih =>
    intro m k
    rw [List.foldl_cons, ih, groupLookup_addToGroup]
    by_cases h : pairKey p.2 = k
    · rw [if_pos h, List.filter_cons, if_pos (by simpa using h)]
      simp
    · rw [if_neg h, List.filter_cons, if_neg (by simpa using h)]

theorem groupLookup_build (conns : List Connection) (k : String) :
    groupLookup (buildPairGroups conns) k = groupIndices conns k := by
  unfold buildPairGroups groupIndices
  rw [groupLookup_foldl]
  rfl

theorem groupIndices_sublist_range (conns : List Connection) (k : String) :
    (groupIndices conns k).Sublist (List.range conns.length) := by
  unfold groupIndices
  have h1 : ((conns.enum.filter (fun p => pairKey p.2 = k)).map (·.1)).Sublist
      (conns.enum.map (·.1)) := (List.filter_sublist _).map _
  have hfst : (fun p : Nat × Connection => p.1) = Prod.fst := rfl
  rw [hfst] at h1
  rwa [List.enum_map_fst] at h1

theorem groupIndices_pairwise_lt (conns : List Connection) (k : String) :
    (groupIndices conns k).Pairwise (· < ·) :=
  (List.pairwise_lt_range _).sublist (groupIndices_sublist_range conns k)

theorem groupIndices_nodup (conns : List Connection) (k : String) :
    (groupIndices conns k).Nodup :=
  (groupIndices_pairwise_lt conns k).imp (fun h => Nat.ne_of_lt h)

theorem mem_groupIndices (conns : List Connection) (k : String) (i : Nat)
    (h : i ∈ groupIndices conns k) :
    ∃ hi : i < conns.length, pairKey conns[i] = k := by
  unfold groupIndices at h
  rw [List.mem_map] at h
  obtain ⟨p, hp, hpi⟩ := h
  rw [List.mem_filter] at hp
  obtain ⟨hpe, hpk⟩ := hp
  obtain ⟨j, hj, hje⟩ := List.mem_iff_getElem.mp hpe
  have hj' : j < conns.length := by simpa [List.enum_length] using hj
  rw [List.getElem_enum] at hje
  subst hje
  simp only at hpi
  subst hpi
  exact ⟨hj', of_decide_eq_true hpk⟩

theorem useStaggeredEdges_length (conns : List Connection) :
    (useStaggeredEdges conns).length = conns.length := by
  simp [useStaggeredEdges, List.enum_length]

theorem useStaggeredEdges_getElem (conns : List Connection) (i : Nat)
    (hi : i < conns.length) (hb : i < (useStaggeredEdges conns).length) :
    (useStaggeredEdges conns)[i] =
      { source := canonicalizeNodeId conns[i].fromId,
        target := canonicalizeNodeId conns[i].toId,
        connectionIndex := i,
        edgeOffset :=
          if (groupLookup (buildPairGroups conns) (pairKey conns[i])).length ≤ 1
          then 0
          else ((groupLookup (buildPairGroups conns) (pairKey conns[i])).indexOf i : ℚ) -
            (((groupLookup (buildPairGroups conns) (pairKey conns[i])).length : ℚ) - 1) / 2 } := by
  have hb' : i < conns.enum.length := by
    rw [List.enum_length]
    exact hi
  have hbm : i < (conns.enum.map (staggeredEdgeOf (buildPairGroups conns))).length := by
    simpa [useStaggeredEdges] using hb
  show (conns.enum.map (staggeredEdgeOf (buildPairGroups conns)))[i] = _
  rw [List.getElem_map, List.getElem_enum]
  rfl

theorem staggered_edgeOffset_at (conns : List Connection) (k : String)
    (j : Nat) (hj : j < (groupIndices conns k).length) :
    ((useStaggeredEdges conns).map (fun e => e.edgeOffset)).getD
        ((groupIndices conns k)[j]) 0 =
      (j : ℚ) - (((groupIndices conns k).length : ℚ) - 1) / 2 := by
  have hmem : (groupIndices conns k)[j] ∈ groupIndices conns k := List.getElem_mem _
  obtain ⟨hi, hkey⟩ := mem_groupIndices conns k _ hmem
  have hb : (groupIndices conns k)[j] < (useStaggeredEdges conns).length := by
    rwa [useStaggeredEdges_length]
  have hlen : (groupIndices conns k)[j] <
      ((useStaggeredEdges conns).map (fun e => e.edgeOffset)).length := by
    simpa [List.length_map] using hb
  rw [List.getD_eq_getElem _ _ hlen, List.getElem_map,
    useStaggeredEdges_getElem conns _ hi hb]
  simp only
  rw [hkey, groupLookup_build]
  rw [List.indexOf_getElem (groupIndices_nodup conns k) j hj]
  by_cases hn : (groupIndices conns k).length ≤ 1
  · rw [if_pos hn]
    have hj0 : j = 0 := by omega
    have hn1 : (groupIndices conns k).length = 1 := by omega
    rw [hj0, hn1]
    norm_num
  · rw [if_neg hn]

theorem staggered_offsets_eq (conns : List Connection) (k : String) :
    (groupIndices conns k).map
        (fun i => ((useStaggeredEdges conns).map (fun e => e.edgeOffset)).getD i 0) =
      (List.range (groupIndices conns k).length).map
        (fun (j : ℕ) => (j : ℚ) - (((groupIndices conns k).length : ℚ) - 1) / 2) := by
  apply List.ext_getElem (by simp)
  intro j h1 h2
  rw [List.getElem_map, List.getElem_map, List.getElem_range]
  exact staggered_edgeOffset_at conns k j (by simpa using h1)

/-- C6: connections are grouped by the unordered pair of canonicalized
endpoint ids (a connection and its endpoint-swap share a pair key); the
members of a group of size `n`, in insertion order, receive exactly the
offsets `position − (n−1)/2`; consequently each group's offsets are
symmetric around zero (negating the list and reversing it reproduces it)
and strictly increasing in insertion position. -/
theorem staggeredEdges_offsets (conns : List Connection) (k : String) :
    (∀ c : Connection,
      pairKey { c with fromId := c.toId, toId := c.fromId } = pairKey c) ∧
    (groupIndices conns k).map
        (fun i => ((useStaggeredEdges conns).map (fun e => e.edgeOffset)).getD i 0) =
      (List.range (groupIndices conns k).length).map
        (fun (j : ℕ) => (j : ℚ) - (((groupIndices conns k).length : ℚ) - 1) / 2) ∧
    (((groupIndices conns k).map
        (fun i => ((useStaggeredEdges conns).map (fun e => e.edgeOffset)).getD i 0)).map
          (fun x => -x)).reverse =
      (groupIndices conns k).map
        (fun i => ((useStaggeredEdges conns).map (fun e => e.edgeOffset)).getD i 0) ∧
    ((groupIndices conns k).map
        (fun i => ((useStaggeredEdges conns).map (fun e => e.edgeOffset)).getD i 0)).Pairwise
      (· < ·) := by
  refine ⟨pairKey_swap, staggered_offsets_eq conns k, ?_, ?_⟩
  · rw [staggered_offsets_eq]
    apply List.ext_getElem (by simp)
    intro j h1 h2
    have hj : j < (groupIndices conns k).length := by simpa using h2
    have h1n : 1 ≤ (groupIndices conns k).length := by omega
    have hjle : j ≤ (groupIndices conns k).length - 1 := by omega
    rw [List.getElem_reverse]
    simp only [List.length_map, List.length_range, List.getElem_map, List.getElem_range]
    rw [Nat.cast_sub hjle, Nat.cast_sub h1n]
    push_cast
    ring
  · rw [staggered_offsets_eq]
    rw [List.pairwise_map]
    refine (List.pairwise_lt_range _).imp ?_
    intro a b hab
    have hq : (a : ℚ) < b := by exact_mod_cast hab
    linarith

/-! ## C1: strip / save / hydrate round trip -/

theorem string_ne_empty_iff_length_pos (s : String) : s ≠ "" ↔ 0 < s.length := by
  constructor
  · intro h
    cases s with
    | mk data =>
      cases data with
      | nil => exact absurd rfl h
      | cons c t => simp [String.length]
  · intro h he
    subst he
    simp [String.length] at h

theorem truthy_vStr_of_ne (s : String) (h : s ≠ "") :
    truthy (some (.vStr s)) = true := by
  have hie : s.isEmpty = false := by
    rw [← Bool.not_eq_true]
    intro he
    exact h ((String.isEmpty_iff s).mp he)
  simp [truthy, hie]

theorem dataLookup_dataSet (d : NodeData) (f k : String) (v : JsValue) :
    dataLookup (dataSet d f v) k = if f = k then some v else dataLookup d k := by
  induction d with
  | nil =>
    by_cases h : f = k <;> simp [dataSet, dataLookup, h]
  | cons p rest ih =>
    obtain ⟨a, w⟩ := p
    by_cases ha : a = f
    · subst ha
      rw [show dataSet ((a, w) :: rest) a v = (a, v) :: rest by simp [dataSet]]
      by_cases hk : a = k <;> simp [dataLookup, hk]
    · rw [show dataSet ((a, w) :: rest) f v = (a, w) :: dataSet rest f v by
        simp [dataSet, ha]]
      by_cases hk : a = k
      · subst hk
        have : ¬ f = a := fun h => ha h.symm
        simp [dataLookup, this]
      · simp [dataLookup, hk, ih]

theorem dataLookup_dataDelete (d : NodeData) (f k : String) :
    dataLookup (dataDelete d f) k = if f = k then none else dataLookup d k := by
  induction d with
  | nil => by_cases h : f = k <;> simp [dataDelete, dataLookup, h]
  | cons p rest ih =>
    obtain ⟨a, w⟩ := p
    by_cases ha : a = f
    · subst ha
      rw [show dataDelete ((a, w) :: rest) a = dataDelete rest a by
        simp [dataDelete, List.filter_cons]]
      by_cases hk : a = k
      · subst hk
        simp [ih]
      · simpa [hk, dataLookup] using ih
    · rw [show dataDelete ((a, w) :: rest) f = (a, w) :: dataDelete rest f by
        simp [dataDelete, List.filter_cons, ha]]
      by_cases hk : a = k
      · subst hk
        have : ¬ f = a := fun h => ha h.symm
        simp [dataLookup, this]
      · simp [dataLookup, hk, ih]

theorem dataLookup_foldl_dataDelete (fs : List String) :
    ∀ (d : NodeData) (k : String),
    dataLookup (fs.foldl dataDelete d) k =
      if k ∈ fs then none else dataLookup d k := by
  induction fs with
  | nil => intro d k; simp
  | cons f fs ih =>
    intro d k
    rw [List.foldl_cons, ih, dataLookup_dataDelete]
    by_cases hk : k ∈ f :: fs
    · rw [if_pos hk]
      rcases List.mem_cons.mp hk with h | h
      · by_cases hfs : k ∈ fs
        · simp [hfs]
        · simp [hfs, h.symm]
      · simp [h]
    · have hk' := hk
      rw [List.mem_cons] at hk'
      push_neg at hk'
      rw [if_neg (by simpa using hk'.2), if_neg (fun h => hk'.1 h.symm), if_neg hk]

theorem dataLookup_mem_keys (d : NodeData) (k : String)
    (h : dataLookup d k ≠ none) : k ∈ dataKeys d := by
  induction d with
  | nil => simp [dataLookup] at h
  | cons p rest ih =>
    by_cases hp : p.1 = k
    · rw [show dataKeys (p :: rest) = p.1 :: dataKeys rest from rfl, hp]
      exact List.mem_cons_self _ _
    · rw [dataLookup, if_neg hp] at h
      exact List.mem_cons_of_mem _ (ih h)

theorem dataEquiv_of_lookup_eq (d d' : NodeData)
    (h : ∀ k, dataLookup d k = dataLookup d' k) : dataEquiv d d' = true := by
  unfold dataEquiv
  rw [List.all_eq_true]
  intro k _
  exact decide_eq_true (h k)

theorem stripBinaryFields_id (n : SNode) : (stripBinaryFields n).id = n.id := by
  simp only [stripBinaryFields]
  split <;> rfl

theorem stripBinaryFields_type (n : SNode) : (stripBinaryFields n).type = n.type := by
  simp only [stripBinaryFields]
  split <;> rfl

theorem stripBinaryFields_position (n : SNode) :
    (stripBinaryFields n).position = n.position := by
  simp only [stripBinaryFields]
  split <;> rfl

theorem stripBinaryFields_data (n : SNode) :
    (stripBinaryFields n).data = (getBinaryFields n.type).foldl dataDelete n.data := by
  simp only [stripBinaryFields]
  split
  · rename_i h
    rw [List.isEmpty_iff.mp h]
    rfl
  · rfl

theorem dataLookup_stripBinaryFields (n : SNode) (k : String) :
    dataLookup (stripBinaryFields n).data k =
      if k ∈ getBinaryFields n.type then none else dataLookup n.data k := by
  rw [stripBinaryFields_data, dataLookup_foldl_dataDelete]

theorem append_colon_inj : ∀ (a1 a2 r1 r2 : List Char),
    ':' ∉ a1 → ':' ∉ a2 → a1 ++ ':' :: r1 = a2 ++ ':' :: r2 → a1 = a2 ∧ r1 = r2
  | [], [], r1, r2, _, _, h => by simpa using h
  | [], c :: t, r1, r2, _, h2, h => by
    simp only [List.nil_append, List.cons_append] at h
    injection h with h1 _
    exact absurd (h1 ▸ List.mem_cons_self c t) h2
  | c :: t, [], r1, r2, h1, _, h => by
    simp only [List.nil_append, List.cons_append] at h
    injection h with hh _
    exact absurd (hh.symm ▸ List.mem_cons_self c t) h1
  | c1 :: t1, c2 :: t2, r1, r2, h1, h2, h => by
    simp only [List.cons_append] at h
    injection h with hh ht
    subst hh
    have ih := append_colon_inj t1 t2 r1 r2
      (fun hm => h1 (List.mem_cons_of_mem _ hm))
      (fun hm => h2 (List.mem_cons_of_mem _ hm)) ht
    exact ⟨by rw [ih.1], ih.2⟩

theorem rev_append_colon (a r : List Char) :
    (a ++ ':' :: r).reverse = r.reverse ++ ':' :: a.reverse := by
  rw [List.reverse_append, List.reverse_cons, List.append_assoc, List.singleton_append]

theorem makeKey_inj (b i1 i2 f1 f2 : String)
    (hf1 : ':' ∉ f1.data) (hf2 : ':' ∉ f2.data)
    (h : makeKey b i1 f1 = makeKey b i2 f2) : i1 = i2 ∧ f1 = f2 := by
  unfold makeKey at h
  have hd := congrArg String.data h
  have hcolon : (":" : String).data = [':'] := rfl
  simp only [String.data_append, hcolon, List.append_assoc, List.singleton_append] at hd
  have hmid' := List.append_cancel_left hd
  have hmid : i1.data ++ ':' :: f1.data = i2.data ++ ':' :: f2.data := by
    injection hmid'
  have hrev := congrArg List.reverse hmid
  rw [rev_append_colon, rev_append_colon] at hrev
  have haux := append_colon_inj _ _ _ _
    (fun hm => hf1 (List.mem_reverse.mp hm))
    (fun hm => hf2 (List.mem_reverse.mp hm)) hrev
  constructor
  · exact String.ext (List.reverse_injective haux.2)
  · exact String.ext (List.reverse_injective haux.1)

theorem getBinaryFields_colonFree (t : String) :
    ∀ f ∈ getBinaryFields t, ':' ∉ f.data := by
  unfold getBinaryFields
  split
  · intro f hf
    fin_cases hf
    decide
  · split
    · intro f hf
      fin_cases hf <;> decide
    · intro f hf
      simp at hf

theorem getBinaryFields_nodup (t : String) : (getBinaryFields t).Nodup := by
  unfold getBinaryFields
  split
  · decide
  · split
    · decide
    · decide

theorem storeGet_saveFields_other (b : String) (node : SNode) (k' : String) :
    ∀ (fs : List String) (st : BinStore),
    (∀ f ∈ fs, makeKey b node.id f ≠ k') →
    storeGet (fs.foldl (fun st field =>
      match dataLookup node.data field with
      | some (.vStr v) =>
        if v.length > 0 then storeSet st (makeKey b node.id field) v else st
      | _ => st) st) k' = storeGet st k' := by
  intro fs
  induction fs with
  | nil => intro st _; rfl
  | cons f fs ih =>
    intro st h
    rw [List.foldl_cons, ih _ (fun g hg => h g (List.mem_cons_of_mem _ hg))]
    have hne := h f (List.mem_cons_self _ _)
    cases hl : dataLookup node.data f with
    | none => simp [hl]
    | some v =>
      cases v with
      | vStr s =>
        by_cases hs : s.length > 0
        · simp only [hl, if_pos hs]
          simp [storeSet, storeGet, hne]
        · simp [hl, hs]
      | vBool bb => simp [hl]

theorem storeGet_saveFields_self (b : String) (node : SNode) :
    ∀ (fs : List String) (st : BinStore) (f s : String),
    fs.Nodup → (∀ g ∈ fs, ':' ∉ g.data) → f ∈ fs →
    dataLookup node.data f = some (.vStr s) → s ≠ "" →
    storeGet (fs.foldl (fun st field =>
      match dataLookup node.data field with
      | some (.vStr v) =>
        if v.length > 0 then storeSet st (makeKey b node.id field) v else st
      | _ => st) st) (makeKey b node.id f) = some s := by
  intro fs
  induction fs with
  | nil => intro st f s _ _ hf; simp at hf
  | cons g fs ih =>
    intro st f s hnd hcf hf hl hs
    rw [List.nodup_cons] at hnd
    rcases List.mem_cons.mp hf with hfg | hftail
    · subst hfg
      rw [List.foldl_cons]
      have hslen : s.length > 0 := (string_ne_empty_iff_length_pos s).mp hs
      rw [show (match dataLookup node.data f with
        | some (.vStr v) =>
          if v.length > 0 then storeSet st (makeKey b node.id f) v else st
        | _ => st) = storeSet st (makeKey b node.id f) s by simp [hl, hslen]]
      rw [storeGet_saveFields_other b node _ fs _ ?_]
      · simp [storeSet, storeGet]
      · intro g' hg' heq
        have := makeKey_inj b node.id node.id g' f
          (hcf g' (List.mem_cons_of_mem _ hg'))
          (hcf f (List.mem_cons_self _ _)) heq
        exact hnd.1 (this.2 ▸ hg')
    · rw [List.foldl_cons]
      exact ih _ f s hnd.2 (fun g' hg' => hcf g' (List.mem_cons_of_mem _ hg'))
        hftail hl hs

theorem storeGet_save_other (b : String) (k' : String) :
    ∀ (nodes : List SNode) (st : BinStore),
    (∀ n ∈ nodes, ∀ f ∈ getBinaryFields n.type, makeKey b n.id f ≠ k') →
    storeGet (saveBinaryFieldsForNodes b nodes st) k' = storeGet st k' := by
  intro nodes
  induction nodes with
  | nil => intro st _; rfl
  | cons m nodes ih =>
    intro st h
    show storeGet (saveBinaryFieldsForNodes b nodes (saveNodeFields b m st)) k' = _
    rw [ih _ (fun n hn => h n (List.mem_cons_of_mem _ hn))]
    exact storeGet_saveFields_other b m k' _ st (h m (List.mem_cons_self _ _))

theorem storeGet_save_self (b : String) :
    ∀ (nodes : List SNode) (st : BinStore) (n : SNode) (f s : String),
    (nodes.map (fun x => x.id)).Nodup → n ∈ nodes →
    f ∈ getBinaryFields n.type →
    dataLookup n.data f = some (.vStr s) → s ≠ "" →
    storeGet (saveBinaryFieldsForNodes b nodes st) (makeKey b n.id f) = some s := by
  intro nodes
  induction nodes with
  | nil => intro st n f s _ hn; simp at hn
  | cons m nodes ih =>
    intro st n f s hnd hn hf hl hs
    rw [List.map_cons, List.nodup_cons] at hnd
    rcases List.mem_cons.mp hn with hnm | hntail
    · subst hnm
      show storeGet (saveBinaryFieldsForNodes b nodes (saveNodeFields b n st)) _ = _
      rw [storeGet_save_other b _ nodes _ ?_]
      · exact storeGet_saveFields_self b n _ st f s (getBinaryFields_nodup _)
          (getBinaryFields_colonFree _) hf hl hs
      · intro n' hn' f' hf' heq
        have := makeKey_inj b n'.id n.id f' f
          (getBinaryFields_colonFree _ f' hf')
          (getBinaryFields_colonFree _ f hf) heq
        exact hnd.1 (this.1 ▸ List.mem_map_of_mem (fun x => x.id) hn')
    · show storeGet (saveBinaryFieldsForNodes b nodes (saveNodeFields b m st)) _ = _
      exact ih _ n f s hnd.2 hntail hf hl hs

theorem hydrateNode_id (b : String) (st : BinStore) (n : SNode) :
    (hydrateNode b st n).id = n.id := by
  simp only [hydrateNode]
  split <;> rfl

theorem hydrateNode_type (b : String) (st : BinStore) (n : SNode) :
    (hydrateNode b st n).type = n.type := by
  simp only [hydrateNode]
  split <;> rfl

theorem hydrateNode_position (b : String) (st : BinStore) (n : SNode) :
    (hydrateNode b st n).position = n.position := by
  simp only [hydrateNode]
  split <;> rfl

theorem hydrateNode_data (b : String) (st : BinStore) (n : SNode) :
    (hydrateNode b st n).data =
      (getBinaryFields n.type).foldl (hydrateField b st n.id) n.data := by
  simp only [hydrateNode]
  split
  · rename_i h
    rw [List.isEmpty_iff.mp h]
    rfl
  · rfl

theorem dataLookup_hydrate_foldl (b : String) (st : BinStore) (nid : String) :
    ∀ (fs : List String) (d : NodeData),
    fs.Nodup →
    (∀ f ∈ fs, dataLookup d f = none) →
    (∀ f ∈ fs, ∃ s, storeGet st (makeKey b nid f) = some s ∧ s ≠ "") →
    ∀ k, dataLookup (fs.foldl (hydrateField b st nid) d) k =
      if k ∈ fs then (storeGet st (makeKey b nid k)).map JsValue.vStr
      else dataLookup d k := by
  intro fs
  induction fs with
  | nil => intro d _ _ _ k; simp
  | cons f fs ih =>
    intro d hnd habs hst k
    rw [List.nodup_cons] at hnd
    obtain ⟨s, hsget, hsne⟩ := hst f (List.mem_cons_self _ _)
    have hstep : hydrateField b st nid d f = dataSet d f (.vStr s) := by
      unfold hydrateField
      rw [habs f (List.mem_cons_self _ _)]
      rw [show truthy none = false from rfl, if_neg (by simp)]
      rw [hsget]
      have : s.isEmpty = false := by
        rw [← Bool.not_eq_true]
        intro he
        exact hsne ((String.isEmpty_iff s).mp he)
      simp [this]
    rw [List.foldl_cons, hstep]
    rw [ih (dataSet d f (.vStr s)) hnd.2 ?_ ?_ k]
    · by_cases hkfs : k ∈ fs
      · rw [if_pos hkfs, if_pos (List.mem_cons_of_mem _ hkfs)]
      · rw [if_neg hkfs, dataLookup_dataSet]
        by_cases hkf : k = f
        · subst hkf
          rw [if_pos rfl, if_pos (List.mem_cons_self _ _), hsget]
          rfl
        · rw [if_neg (fun h => hkf h.symm),
            if_neg (by simp [List.mem_cons, hkf, hkfs])]
    · intro g hg
      rw [dataLookup_dataSet, if_neg (fun h => hnd.1 (by rw [h]; exact hg))]
      exact habs g (List.mem_cons_of_mem _ hg)
    · intro g hg
      exact hst g (List.mem_cons_of_mem _ hg)

theorem hydrateNode_strip_lookup (b : String) (st : BinStore) (n : SNode)
    (hall : ∀ f ∈ getBinaryFields n.type,
      ∃ s, dataLookup n.data f = some (.vStr s) ∧ s ≠ "" ∧
        storeGet st (makeKey b n.id f) = some s) :
    ∀ k, dataLookup (hydrateNode b st (stripBinaryFields n)).data k =
      dataLookup n.data k := by
  intro k
  rw [hydrateNode_data, stripBinaryFields_type, stripBinaryFields_id]
  rw [dataLookup_hydrate_foldl b st n.id (getBinaryFields n.type)
    (stripBinaryFields n).data (getBinaryFields_nodup _) ?_ ?_ k]
  · by_cases hk : k ∈ getBinaryFields n.type
    · rw [if_pos hk]
      obtain ⟨s, hl, _, hget⟩ := hall k hk
      rw [hget, hl]
      rfl
    · rw [if_neg hk, dataLookup_stripBinaryFields, if_neg hk]
  · intro f hf
    rw [dataLookup_stripBinaryFields, if_pos hf]
  · intro f hf
    obtain ⟨s, _, hsne, hget⟩ := hall f hf
    exact ⟨s, hget, hsne⟩

/-- C1: stripping the statically known binary fields, saving them to the
binary store, and hydrating the stripped items from that store reproduces
the original items exactly — same id, kind and position, and a data
record that reads back identically at every key (hydration re-adds the
stripped keys at the end of the record, which is invisible to property
reads on a JS object).  The items are a board's: ids are unique, and each
binary field of an item's kind is present as a non-empty string. -/
theorem hydrate_strip_roundTrip (boardId : String) (nodes : List SNode)
    (hids : (nodes.map (fun x => x.id)).Nodup)
    (hpresent : ∀ n ∈ nodes, ∀ f ∈ getBinaryFields n.type,
      ∃ s, dataLookup n.data f = some (.vStr s) ∧ s ≠ "") :
    nodesEquiv
      (hydrateNodesFromIndexedDB boardId (nodes.map stripBinaryFields)
        (saveBinaryFieldsForNodes boardId nodes []))
      nodes = true := by
  have hall : ∀ n ∈ nodes, ∀ f ∈ getBinaryFields n.type,
      ∃ s, dataLookup n.data f = some (.vStr s) ∧ s ≠ "" ∧
        storeGet (saveBinaryFieldsForNodes boardId nodes [])
          (makeKey boardId n.id f) = some s := by
    intro n hn f hf
    obtain ⟨s, hl, hs⟩ := hpresent n hn f hf
    exact ⟨s, hl, hs, storeGet_save_self boardId nodes [] n f s hids hn hf hl hs⟩
  unfold nodesEquiv hydrateNodesFromIndexedDB
  rw [Bool.and_eq_true]
  constructor
  · simp
  · rw [List.all_eq_true]
    intro p hp
    obtain ⟨i, hi, hpe⟩ := List.mem_iff_getElem.mp hp
    have hi1 : i < nodes.length := by simpa using hi
    rw [List.getElem_zip] at hpe
    have hp1 : p.1 = hydrateNode boardId (saveBinaryFieldsForNodes boardId nodes [])
        (stripBinaryFields (nodes[i])) := by
      rw [← hpe]
      simp
    have hp2 : p.2 = nodes[i] := by rw [← hpe]
    rw [hp1, hp2]
    have hmem : nodes[i] ∈ nodes := List.getElem_mem _
    unfold nodeEquiv
    rw [Bool.and_eq_true, Bool.and_eq_true, Bool.and_eq_true]
    refine ⟨⟨⟨?_, ?_⟩, ?_⟩, ?_⟩
    · exact decide_eq_true (by rw [hydrateNode_id, stripBinaryFields_id])
    · exact decide_eq_true (by rw [hydrateNode_type, stripBinaryFields_type])
    · exact decide_eq_true (by rw [hydrateNode_position, stripBinaryFields_position])
    · exact dataEquiv_of_lookup_eq _ _
        (hydrateNode_strip_lookup boardId _ (nodes[i]) (hall _ hmem))

theorem hydrate_strip_roundTrip_witness :
    let nImg : SNode :=
      { id := "1", type := "imageCard", position := (0, 0),
        data := [("imageDataUrl", .vStr "data-img"), ("label", .vStr "pic"), ("fileName", .vStr "a.png")] }
    let nPdf : SNode :=
      { id := "2", type := "pdfCard", position := (3, 4),
        data := [("pdfDataUrl", .vStr "data-pdf"), ("thumbnailDataUrl", .vStr "data-thumb"), ("label", .vStr "doc")] }
    let nTxt : SNode :=
      { id := "3", type := "textCard", position := (5, 6), data := [("text", .vStr "note")] }
    nodesEquiv
      (hydrateNodesFromIndexedDB "b" ([nImg, nPdf, nTxt].map stripBinaryFields)
        (saveBinaryFieldsForNodes "b" [nImg, nPdf, nTxt] []))
      [nImg, nPdf, nTxt] = true := by
  intro nImg nPdf nTxt
  refine hydrate_strip_roundTrip "b" [nImg, nPdf, nTxt] (by decide) ?_
  intro n hn f hf
  simp only [List.mem_cons, List.not_mem_nil, or_false] at hn
  rcases hn with h | h | h
  · subst h
    rw [show getBinaryFields nImg.type = ["imageDataUrl"] by decide] at hf
    simp only [List.mem_singleton] at hf
    subst hf
    exact ⟨"data-img", by decide, by decide⟩
  · subst h
    rw [show getBinaryFields nPdf.type = ["pdfDataUrl", "thumbnailDataUrl"] by decide] at hf
    simp only [List.mem_cons, List.not_mem_nil, or_false] at hf
    rcases hf with hf | hf
    · subst hf
      exact ⟨"data-pdf", by decide, by decide⟩
    · subst hf
      exact ⟨"data-thumb", by decide, by decide⟩
  · subst h
    rw [show getBinaryFields nTxt.type = [] by decide] at hf
    simp at hf
